import Mathlib

/-!
Shallow embedding of Shopify/fastgcs: a small Google Cloud Storage client
with a local object cache, conditional (ETag) revalidation, and
multi-tier access-token resolution.  The repository holds two
implementations of one design: `lib/fastgcs.rb` (Ruby) and a Go package
(first document of `src/unnamed/part_000`).  Definitions below are
translated from those sources; time is modelled as `Int`, file contents
as `String` or `List Char`, and the filesystem and network as explicit
values passed in and out.
-/

namespace FastGCSProof

/-- Generic decidable equality for `Except`, used to evaluate the
embedded fallible operations with `decide`. -/
instance {ε α : Type} [DecidableEq ε] [DecidableEq α] : DecidableEq (Except ε α) :=
  fun a b =>
    match a, b with
    | .ok x, .ok y =>
      if h : x = y then isTrue (by rw [h]) else isFalse (by intro hh; cases hh; exact h rfl)
    | .error x, .error y =>
      if h : x = y then isTrue (by rw [h]) else isFalse (by intro hh; cases hh; exact h rfl)
    | .ok _, .error _ => isFalse (by intro hh; cases hh)
    | .error _, .ok _ => isFalse (by intro hh; cases hh)

/-! ## Reference parser

Go `parseGSURL` applies the regexp `^gs://([^/]+)/(.*)$`
(`gsURLRegexp.FindStringSubmatch`); Ruby `FastGCS#parse_gs_url` uses the
same pattern.  Go (RE2, no flags) semantics: the match is anchored at the
start and at the end of the text, `[^/]+` is a non-empty run of
characters other than `'/'` (a newline is allowed there), and `(.*)`
cannot contain a newline, with `$` matching only at the very end of the
text.  Because the bucket group can never contain `'/'`, the split point
is exactly the first `'/'` after the `gs://` prefix. -/

/-- Split a character list at its first `'/'`: the part before (which
therefore contains no `'/'`) and the part after. -/
def splitFirstSlash : List Char → Option (List Char × List Char)
  | [] => none
  | c :: rest =>
    if c = '/' then some ([], rest)
    else
      match splitFirstSlash rest with
      | none => none
      | some (b, k) => some (c :: b, k)

/-- The group conditions of the Go regexp after the split: `([^/]+)`
requires a non-empty bucket, and `(.*)$` rejects a newline anywhere in
the object key. -/
def checkGroups : Option (List Char × List Char) → Option (List Char × List Char)
  | none => none
  | some (b, k) => if b = [] then none else if '\n' ∈ k then none else some (b, k)

/-- The Go regexp `^gs://([^/]+)/(.*)$` applied to a whole string,
returning the two submatches (bucket, object key) when it matches. -/
def gsURLRegexpMatch (l : List Char) : Option (List Char × List Char) :=
  if l.take 5 = ['g', 's', ':', '/', '/'] then
    checkGroups (splitFirstSlash (l.drop 5))
  else none

/-- Go `parseGSURL`: on a regexp match return (bucket, object); otherwise
an invalid-URL error carrying the input, with no partial result. -/
def parseGSURL (s : String) : Except String (String × String) :=
  match gsURLRegexpMatch s.data with
  | some (b, k) => .ok (⟨b⟩, ⟨k⟩)
  | none => .error ("invalid GCS URL: " ++ s)

/-! ## Cache path -/

/-- Go `strings.ReplaceAll(object, "/", "-")` (Ruby: `object.tr('/', '-')`).
With a single-character pattern, ReplaceAll substitutes each occurrence,
character by character. -/
def replaceSlashDash : List Char → List Char
  | [] => []
  | c :: rest => (if c = '/' then '-' else c) :: replaceSlashDash rest

/-- Stated from the spec wording: the key with every `'/'` replaced by
`'-'`, as a character map; compared against `replaceSlashDash` below. -/
def specFlattenKey (k : String) : String :=
  ⟨k.data.map (fun c => if c = '/' then '-' else c)⟩

/-- The path-forming step of Go `cachePath` / Ruby `cache_path`:
`filepath.Join(cacheRoot, fmt.Sprintf("%s--%s", bucket, strings.ReplaceAll(object, "/", "-")))`.
Joining a clean root with one separator-free component is modelled as
interposing `"/"`. -/
def cachePathOf (cacheRoot bucket object : String) : String :=
  cacheRoot ++ "/" ++ bucket ++ "--" ++ (⟨replaceSlashDash object.data⟩ : String)

/-- Go `cachePath` / Ruby `cache_path`: parse the `gs://` URL, then form
the deterministic cache file path. -/
def cachePath (cacheRoot : String) (gsURL : String) : Except String String :=
  match parseGSURL gsURL with
  | .error e => .error e
  | .ok (bucket, object) => .ok (cachePathOf cacheRoot bucket object)

/-! ## Go conditional-fetch model

Go `update` (first document of `part_000`, lines 115-151): after building
the request with the Authorization header, it opens the cache path itself
with `os.OpenFile(path, os.O_WRONLY|os.O_CREATE, 0644)` — no `O_TRUNC`
and no temporary file — and `io.Copy(dst, res.Body)` writes the response
body over the old content starting at offset 0.  The response status is
never inspected, no `If-None-Match` header is ever sent, and no ETag
sidecar exists. -/

/-- POSIX write semantics: write `data` into `file` at byte offset `off`
(with `off` at most the current length), leaving bytes after the written
range untouched. -/
def overwriteAt (file : List Char) (off : Nat) (data : List Char) : List Char :=
  file.take off ++ data ++ file.drop (off + data.length)

/-- Content of the cache file after Go `update` writes a response body
over old content `old` (the file is opened without truncation, so the
old tail beyond the body survives). -/
def goUpdateFinal (old body : List Char) : List Char := overwriteAt old 0 body

/-- A storage response as Go sees it: status and raw body. -/
structure GoResp where
  status : Nat
  body : List Char
deriving DecidableEq

/-- Go `update` result: `res.Body` is copied into the cache file and the
path returned whatever the status is — `res.StatusCode` is never read. -/
def goUpdate (old : List Char) (resp : GoResp) : Except String (List Char) :=
  .ok (goUpdateFinal old resp.body)

/-- Successive visible contents of the cache file while `io.Copy` writes
the body chunk by chunk over the untruncated old content. -/
def goCopyStates (file : List Char) (off : Nat) : List (List Char) → List (List Char)
  | [] => []
  | c :: cs =>
    let f' := overwriteAt file off c
    f' :: goCopyStates f' (off + c.length) cs

/-- All contents the cache path holds during a Go `update` download, the
pre-existing content first. -/
def goUpdateStates (old : List Char) (chunks : List (List Char)) : List (List Char) :=
  old :: goCopyStates old 0 chunks

/-- The only header Go `update` sets:
`req.Header.Add("Authorization", fmt.Sprintf("Bearer %s", f.token.Token))`. -/
def goRequestHeaders (tokenValue : String) : List (String × String) :=
  [("Authorization", "Bearer " ++ tokenValue)]

/-! ## Go credential model -/

/-- Go `token` struct: `Token string; Expiry time.Time`. -/
structure GoToken where
  value : String
  expiry : Int
deriving DecidableEq

/-- Observable states of the durable token-cache file
`~/.config/gcloud/com.shopify.fastgcs.json`. -/
inductive GoCacheFile where
  | absent
  | corrupt
  | record (value : String) (expiry : Int)
deriving DecidableEq

/-- Go `findTokenInCache`: a read error (such as a missing file) is
swallowed (`nil, nil`); a JSON unmarshal failure is returned as an error;
otherwise the decoded record is returned without any expiry check. -/
def goFindTokenInCache : GoCacheFile → Except String (Option GoToken)
  | .absent => .ok none
  | .corrupt => .error "json unmarshal error"
  | .record v e => .ok (some ⟨v, e⟩)

/-- The cache-consultation tail of Go `ensureCurrentToken`: returns the
call result and the new `f.token` field (unchanged when the call
errors). -/
def goEnsureFromCache (cache : GoCacheFile) (held : Option GoToken) :
    Except String Unit × Option GoToken :=
  match goFindTokenInCache cache with
  | .error e => (.error e, held)
  | .ok (some t) => (.ok (), some t)
  | .ok none => (.error "could not obtain access token", held)

/-- Go `ensureCurrentToken`: keep a held token whose expiry is strictly
in the future (`time.Now().Before(tok.Expiry)`); otherwise consult the
durable cache.  There is no SDK-store tier and no network-refresh
tier. -/
def goEnsureCurrentToken (now : Int) (cache : GoCacheFile) (held : Option GoToken) :
    Except String Unit × Option GoToken :=
  match held with
  | some t =>
    if now < t.expiry then (.ok (), held)
    else goEnsureFromCache cache held
  | none => goEnsureFromCache cache held

/-- The three credential sources named by the spec. -/
inductive TierId where
  | durableCache
  | sdkStore
  | networkRefresh
deriving DecidableEq

/-- Which credential sources one Go `ensureCurrentToken` call consults,
in order: none on the early return, otherwise only `findTokenInCache`. -/
def goConsultedTiers (now : Int) (held : Option GoToken) : List TierId :=
  match held with
  | some t => if now < t.expiry then [] else [.durableCache]
  | none => [.durableCache]

/-- What happens when Go `update` builds its GET request: dereferencing
`f.token.Token` with no token held is a nil-pointer dereference. -/
inductive GoOp where
  | panicNilDeref
  | get (authHeader : String)
deriving DecidableEq

/-- The Authorization-building step of Go `update`. -/
def goAuthStep : Option GoToken → GoOp
  | none => .panicNilDeref
  | some t => .get ("Bearer " ++ t.value)

/-- Go `Read`: calls `update` directly; `ensureCurrentToken` is never
invoked. -/
def goReadOp (held : Option GoToken) : GoOp := goAuthStep held

/-- Go `Copy`: calls `update` directly; `ensureCurrentToken` is never
invoked. -/
def goCopyOp (held : Option GoToken) : GoOp := goAuthStep held

/-- Go `Open`: calls `f.ensureCurrentToken()` but discards its error,
then proceeds into `update` regardless. -/
def goOpenOp (now : Int) (cache : GoCacheFile) (held : Option GoToken) : GoOp :=
  goAuthStep (goEnsureCurrentToken now cache held).2

/-! ## Ruby conditional-fetch model

Ruby `FastGCS#update_http` / `#get` (`lib/fastgcs.rb`, lines 73-124):
read the sidecar ETag, send it as `If-None-Match` when present, stream a
200 body into a file inside a fresh `Dir.mktmpdir` directory, and only
when `get` returned an ETag, `FileUtils.mv` the temp file over the cache
path and then write the sidecar.  A non-200/304 status raises
`"HTTP error <code>"` inside `get`; the `mktmpdir` block removes the
temp directory on every exit path. -/

/-- A storage response as Ruby sees it: status code, body, and the
optional `ETag` header. -/
structure RbResp where
  code : Nat
  body : String
  etagHeader : Option String
deriving DecidableEq

/-- Errors raised by the Ruby implementation. -/
inductive RbErr where
  | httpError (code : Nat)
  | enoent
  | cacheCorrupt
  | credUnavailable
deriving DecidableEq

/-- Ruby `FastGCS#get` response handling: 200 streams the body into the
given file and returns the response `ETag` header (which may be absent);
304 returns nil; any other status raises. -/
def rubyGet (resp : RbResp) : Except RbErr (Option String) :=
  if resp.code = 200 then .ok resp.etagHeader
  else if resp.code = 304 then .ok none
  else .error (.httpError resp.code)

/-- Filesystem events of one `update_http` call, in order. -/
inductive REv where
  | mkTmpDir
  | writeTmp (data : String)
  | mvTmpToCache
  | writeSidecar (etag : String)
  | rmTmpDir
deriving DecidableEq

/-- Ruby `update_http` as an event trace: `Dir.mktmpdir`, stream the 200
body into the temp file, and —only when `get` returned an ETag—
`FileUtils.mv(file, path)` followed by writing the sidecar.  On a raise
from `get`, the block unwinds removing the temp dir and nothing else
runs; on a 304 (or a 200 without an ETag header) the cache entry is left
untouched. -/
def rubyUpdateHttpTrace (resp : RbResp) : Except RbErr Unit × List REv :=
  match rubyGet resp with
  | .error e => (.error e, [.mkTmpDir, .rmTmpDir])
  | .ok none =>
    if resp.code = 200 then (.ok (), [.mkTmpDir, .writeTmp resp.body, .rmTmpDir])
    else (.ok (), [.mkTmpDir, .rmTmpDir])
  | .ok (some e) =>
    (.ok (), [.mkTmpDir, .writeTmp resp.body, .mvTmpToCache, .writeSidecar e, .rmTmpDir])

/-- One object-cache entry plus the in-flight temp file: the cache file,
its ETag sidecar, and the temp download file. -/
structure FS where
  cacheFile : Option String
  sidecar : Option String
  tmpFile : Option String
deriving DecidableEq

/-- Effect of one `update_http` event on the entry. -/
def applyREv (fs : FS) : REv → FS
  | .mkTmpDir => ⟨fs.cacheFile, fs.sidecar, some ""⟩
  | .writeTmp d => ⟨fs.cacheFile, fs.sidecar, some d⟩
  | .mvTmpToCache => ⟨fs.tmpFile, fs.sidecar, none⟩
  | .writeSidecar e => ⟨fs.cacheFile, some e, fs.tmpFile⟩
  | .rmTmpDir => ⟨fs.cacheFile, fs.sidecar, none⟩

/-- Apply a trace of `update_http` events in order. -/
def applyTrace (fs : FS) (evs : List REv) : FS := evs.foldl applyREv fs

/-- The remote object: its current bytes and ETag. -/
structure Remote where
  body : String
  etag : String
deriving DecidableEq

/-- The storage GET endpoint per the documented interface: a matching
`If-None-Match` yields 304 with an empty body, anything else yields 200
with the object bytes and its ETag header. -/
def serve (r : Remote) (ifNoneMatch : Option String) : RbResp :=
  if ifNoneMatch = some r.etag then ⟨304, "", none⟩ else ⟨200, r.body, some r.etag⟩

/-- What one `update` call sent and received. -/
structure RbCallLog where
  ifNoneMatch : Option String
  respCode : Nat
deriving DecidableEq

/-- Ruby `update`/`update_http` against the server: the sidecar ETag (if
any) is read and sent as `If-None-Match`, the response is processed as in
`rubyUpdateHttpTrace`, and the trace is applied to the cache entry. -/
def rubyUpdateCall (r : Remote) (fs : FS) : FS × RbCallLog :=
  let inm := fs.sidecar
  let resp := serve r inm
  (applyTrace fs (rubyUpdateHttpTrace resp).2, ⟨inm, resp.code⟩)

/-! ## Ruby credential model

Ruby `ensure_current_token` (lines 148-157) and its three sources:
`try_access_token_from_cache` (159-171), `try_access_token_from_gcloud_db`
(180-196), `refresh_access_token` (198-217). -/

/-- Observable states of the durable token-cache file for Ruby. -/
inductive RbCacheFile where
  | absent
  | corrupt
  | record (value : String) (expiry : Int)
deriving DecidableEq

/-- Observable states of the gcloud `access_tokens.db` scan. -/
inductive RbGcloudDB where
  | fileMissing
  | noUsableRow
  | row (value : String) (expiry : Int)
deriving DecidableEq

/-- Outcome of the network token-refresh exchange. -/
inductive RbRefresh where
  | httpError (code : Nat)
  | success (accessToken : String) (expiresIn : Int)
deriving DecidableEq

/-- The environment a resolution call runs in. -/
structure RbCredEnv where
  now : Int
  cacheFile : RbCacheFile
  gcloudDB : RbGcloudDB
  refresh : RbRefresh
deriving DecidableEq

/-- Ruby `try_access_token_from_cache`: a missing file is rescued to
false; unparseable JSON raises; a parsed record is accepted iff
`expiry > Time.now` (strict), otherwise false. -/
def tryAccessTokenFromCache (now : Int) : RbCacheFile → Except RbErr (Option (String × Int))
  | .absent => .ok none
  | .corrupt => .error .cacheCorrupt
  | .record v e => if now < e then .ok (some (v, e)) else .ok none

/-- Ruby `try_access_token_from_gcloud_db`: `File.read` raises ENOENT
when the db file is missing (there is no rescue); a failed scan returns
false; a scanned row is accepted iff its expiry is in the future. -/
def tryAccessTokenFromGcloudDB (now : Int) : RbGcloudDB → Except RbErr (Option (String × Int))
  | .fileMissing => .error .enoent
  | .noUsableRow => .ok none
  | .row v e => if now < e then .ok (some (v, e)) else .ok none

/-- Ruby `refresh_access_token`: raises on a non-200 token-endpoint
response; on success sets `@expiry = Time.now + expires_in` and returns
true. -/
def refreshAccessToken (now : Int) : RbRefresh → Except RbErr (String × Int)
  | .httpError c => .error (.httpError c)
  | .success a d => .ok (a, now + d)

/-- The `found ||= ...` chain of Ruby `ensure_current_token`: each source
is consulted only while `found` is still false, and a raise propagates
immediately.  Returns the result with the list of sources consulted, in
order. -/
def rubyResolveTiers (env : RbCredEnv) : Except RbErr (String × Int) × List TierId :=
  match tryAccessTokenFromCache env.now env.cacheFile with
  | .error e => (.error e, [.durableCache])
  | .ok (some t) => (.ok t, [.durableCache])
  | .ok none =>
    match tryAccessTokenFromGcloudDB env.now env.gcloudDB with
    | .error e => (.error e, [.durableCache, .sdkStore])
    | .ok (some t) => (.ok t, [.durableCache, .sdkStore])
    | .ok none =>
      match refreshAccessToken env.now env.refresh with
      | .error e => (.error e, [.durableCache, .sdkStore, .networkRefresh])
      | .ok t => (.ok t, [.durableCache, .sdkStore, .networkRefresh])

/-- Ruby `ensure_current_token`: early return when the held token expiry
is strictly in the future, otherwise run the source chain. -/
def rubyEnsureCurrentToken (env : RbCredEnv) (held : Option (String × Int)) :
    Except RbErr (String × Int) × List TierId :=
  match held with
  | some (v, e) =>
    if env.now < e then (.ok (v, e), [])
    else rubyResolveTiers env
  | none => rubyResolveTiers env

/-- Stated from the spec wording: try an ordered list of sources,
short-circuiting on the first one that yields a token, aborting on the
first raised error, falling through past a source that yields nothing,
and failing with `CredentialUnavailable` when the list is exhausted. -/
def specResolve : List (TierId × Except RbErr (Option (String × Int))) →
    Except RbErr (String × Int) × List TierId
  | [] => (.error .credUnavailable, [])
  | (id, r) :: rest =>
    match r with
    | .error e => (.error e, [id])
    | .ok (some t) => (.ok t, [id])
    | .ok none =>
      let p := specResolve rest
      (p.1, id :: p.2)

/-- The ordered source outcomes of one Ruby resolution environment. -/
def rubyTierOutcomes (env : RbCredEnv) :
    List (TierId × Except RbErr (Option (String × Int))) :=
  [(.durableCache, tryAccessTokenFromCache env.now env.cacheFile),
   (.sdkStore, tryAccessTokenFromGcloudDB env.now env.gcloudDB),
   (.networkRefresh, (refreshAccessToken env.now env.refresh).map some)]

/-! ## Ruby token-cache store model

Ruby `update_cache` (lines 173-178):
`File.write(CREDENTIAL_CACHE, j)` followed by
`File.open(CREDENTIAL_CACHE, File::WRONLY|File::CREAT, 0600) do |f| f.write(j) end`
where `j` is the serialized `{ token, expiry }` record.  `File.write`
opens the live path in mode `"w"` — creating it with the default 0666
mode (before umask) if absent, truncating it otherwise — and writes `j`;
the reopen applies 0600 only if that open itself creates the file and
does not truncate. -/

/-- Write-path events on the credential-cache file. -/
inductive WEv where
  | truncCreate (mode : Nat)
  | writeData (data : String)
  | openNoTruncCreate (mode : Nat)
  | renameInto (data : String)
deriving DecidableEq

/-- The event sequence of one Ruby `update_cache` call, `j` being the
serialized record. -/
def updateCacheEvents (j : String) : List WEv :=
  [.truncCreate 0o666, .writeData j, .openNoTruncCreate 0o600, .writeData j]

/-- The credential-cache file: content and permission bits, each absent
when the file does not exist. -/
structure CredFileState where
  content : Option String
  mode : Option Nat
deriving DecidableEq

/-- Semantics of the write-path events: creation fixes the mode once;
truncation empties the content; a data write overwrites from offset 0;
a rename replaces the content atomically. -/
def applyWEv (st : CredFileState) : WEv → CredFileState
  | .truncCreate m =>
    match st.mode with
    | none => ⟨some "", some m⟩
    | some m0 => ⟨some "", some m0⟩
  | .writeData d =>
    match st.content with
    | none => ⟨some d, st.mode⟩
    | some c => ⟨some ⟨overwriteAt c.data 0 d.data⟩, st.mode⟩
  | .openNoTruncCreate m =>
    match st.content with
    | none => ⟨some "", some m⟩
    | some c => ⟨some c, st.mode⟩
  | .renameInto d => ⟨some d, st.mode⟩

/-- Apply the event sequence. -/
def applyWEvs (st : CredFileState) (evs : List WEv) : CredFileState :=
  evs.foldl applyWEv st

/-- Every state the file passes through, initial state first. -/
def credStatesFrom (st : CredFileState) : List WEv → List CredFileState
  | [] => [st]
  | e :: es => st :: credStatesFrom (applyWEv st e) es

/-- Whether an event is a rename. -/
def isRenameEv : WEv → Bool
  | .renameInto _ => true
  | _ => false

/-! ## Helper lemmas -/

/-- String equality is equality of the underlying character lists. -/
theorem string_eq_iff (a c : String) : a = c ↔ a.data = c.data := by
  constructor
  · intro h; rw [h]
  · intro h
    cases a; cases c
    exact congrArg String.mk h

/-- Appending strings appends their character lists. -/
theorem string_data_append (a c : String) : (a ++ c).data = a.data ++ c.data := by
  cases a; cases c; rfl

/-- Rebuilding a string from its own character list is the identity. -/
theorem string_mk_data (s : String) : (⟨s.data⟩ : String) = s := by
  cases s; rfl

/-- The character list underlying `String.mk`. -/
theorem string_data_mk (l : List Char) : (⟨l⟩ : String).data = l := rfl

/-- String append is associative. -/
theorem str_append_assoc (a c d : String) : a ++ c ++ d = a ++ (c ++ d) := by
  cases a; cases c; cases d
  exact congrArg String.mk (List.append_assoc _ _ _)

/-- Dropping the length of a string from its character list empties
it. -/
theorem drop_string_length (s : String) : s.data.drop s.length = [] := by
  cases s
  exact List.drop_length _

/-- Characterization of `splitFirstSlash`. -/
theorem splitFirstSlash_some_iff (t : List Char) : ∀ b k : List Char,
    splitFirstSlash t = some (b, k) ↔ (t = b ++ '/' :: k ∧ '/' ∉ b) := by
  induction t with
  | nil =>
    intro b k
    constructor
    · intro h; exact Option.noConfusion h
    · rintro ⟨h, -⟩
      exact absurd h (by cases b <;> simp)
  | cons c rest ih =>
    intro b k
    by_cases hc : c = '/'
    · subst hc
      constructor
      · intro h
        have h' : some (([] : List Char), rest) = some (b, k) := by
          simpa [splitFirstSlash] using h
        have hbk : ([] : List Char) = b ∧ rest = k := by simpa using h'
        obtain ⟨hb, hk⟩ := hbk
        subst hb; subst hk
        exact ⟨rfl, by simp⟩
      · rintro ⟨heq, hmem⟩
        cases b with
        | nil =>
          have hk : rest = k := by simpa using heq
          subst hk
          simp [splitFirstSlash]
        | cons c' b' =>
          exfalso
          simp only [List.cons_append, List.cons.injEq] at heq
          exact hmem (by rw [heq.1]; exact List.mem_cons_self _ _)
    · constructor
      · intro h
        have h' : (match splitFirstSlash rest with
            | none => none
            | some (b, k) => some (c :: b, k)) = some (b, k) := by
          simpa [splitFirstSlash, hc] using h
        cases hsp : splitFirstSlash rest with
        | none =>
          rw [hsp] at h'
          exact Option.noConfusion h'
        | some bk =>
          obtain ⟨b', k'⟩ := bk
          rw [hsp] at h'
          have hbk : c :: b' = b ∧ k' = k := by simpa using h'
          obtain ⟨hb, hk⟩ := hbk
          obtain ⟨hr1, hr2⟩ := (ih b' k').mp hsp
          constructor
          · rw [← hb, ← hk, hr1]; simp
          · rw [← hb]
            intro hx
            rcases List.mem_cons.mp hx with h1 | h2
            · exact hc h1.symm
            · exact hr2 h2
      · rintro ⟨heq, hmem⟩
        cases b with
        | nil =>
          exfalso
          have h2 : c = '/' ∧ rest = k := by simpa using heq
          exact hc h2.1
        | cons c' b' =>
          simp only [List.cons_append, List.cons.injEq] at heq
          obtain ⟨h1, h2⟩ := heq
          have hmem' : '/' ∉ b' := fun hx => hmem (List.mem_cons_of_mem _ hx)
          have hsp : splitFirstSlash rest = some (b', k) := (ih b' k).mpr ⟨h2, hmem'⟩
          subst h1
          simp [splitFirstSlash, hc, hsp]

/-- Characterization of the regexp match at the character-list level. -/
theorem gsURLRegexpMatch_some_iff (l b k : List Char) :
    gsURLRegexpMatch l = some (b, k) ↔
      (l = ['g', 's', ':', '/', '/'] ++ b ++ '/' :: k ∧ b ≠ [] ∧ '/' ∉ b ∧ '\n' ∉ k) := by
  constructor
  · intro h
    unfold gsURLRegexpMatch at h
    by_cases hp : l.take 5 = ['g', 's', ':', '/', '/']
    · rw [if_pos hp] at h
      have hl : l = ['g', 's', ':', '/', '/'] ++ l.drop 5 := by
        conv_lhs => rw [← List.take_append_drop 5 l]
        rw [hp]
      cases hsp : splitFirstSlash (l.drop 5) with
      | none =>
        rw [hsp] at h
        exact Option.noConfusion h
      | some bk =>
        obtain ⟨b', k'⟩ := bk
        rw [hsp] at h
        by_cases hb' : b' = []
        · rw [show checkGroups (some (b', k')) = none by simp [checkGroups, hb']] at h
          exact Option.noConfusion h
        · by_cases hnl' : '\n' ∈ k'
          · rw [show checkGroups (some (b', k')) = none by
              simp [checkGroups, hb', hnl']] at h
            exact Option.noConfusion h
          · rw [show checkGroups (some (b', k')) = some (b', k') by
              simp [checkGroups, hb', hnl']] at h
            have hbk : b' = b ∧ k' = k := by simpa using h
            obtain ⟨hb, hk⟩ := hbk
            obtain ⟨hr1, hr2⟩ := (splitFirstSlash_some_iff _ b' k').mp hsp
            refine ⟨?_, ?_, ?_, ?_⟩
            · rw [hl, hr1, hb, hk]; simp
            · rw [← hb]; exact hb'
            · rw [← hb]; exact hr2
            · rw [← hk]; exact hnl'
    · rw [if_neg hp] at h
      exact Option.noConfusion h
  · rintro ⟨heq, hb, hslash, hnl⟩
    have hp : l.take 5 = ['g', 's', ':', '/', '/'] := by
      rw [heq, List.append_assoc]
      exact List.take_left ['g', 's', ':', '/', '/'] (b ++ '/' :: k)
    have hdrop : l.drop 5 = b ++ '/' :: k := by
      rw [heq, List.append_assoc]
      exact List.drop_left ['g', 's', ':', '/', '/'] (b ++ '/' :: k)
    have hsp : splitFirstSlash (l.drop 5) = some (b, k) :=
      (splitFirstSlash_some_iff _ b k).mpr ⟨hdrop, hslash⟩
    unfold gsURLRegexpMatch
    rw [if_pos hp, hsp]
    simp [checkGroups, hb, hnl]

/-- Success of `parseGSURL` in terms of the regexp match. -/
theorem parseGSURL_eq_ok_iff_match (s b k : String) :
    parseGSURL s = Except.ok (b, k) ↔ gsURLRegexpMatch s.data = some (b.data, k.data) := by
  unfold parseGSURL
  split
  · rename_i b' k' hm
    rw [hm]
    simp only [Except.ok.injEq, Prod.mk.injEq, Option.some.injEq]
    constructor
    · rintro ⟨h1, h2⟩
      constructor
      · rw [← h1]
      · rw [← h2]
    · rintro ⟨h1, h2⟩
      exact ⟨(string_eq_iff _ _).mpr h1, (string_eq_iff _ _).mpr h2⟩
  · rename_i hm
    rw [hm]
    simp

/-- The code-side flattening agrees with the per-character map stated by
the spec. -/
theorem replaceSlashDash_eq_map (l : List Char) :
    replaceSlashDash l = l.map (fun c => if c = '/' then '-' else c) := by
  induction l with
  | nil => rfl
  | cons c rest ih => simp [replaceSlashDash, ih]

/-! ## Claim theorems -/

/-- Claim C3 (amended): a string parses successfully iff it has the shape
`gs://B/K` with `B` non-empty and slash-free and `K` newline-free, in
which case bucket and key are returned exactly; every other string —
including one whose key contains a newline — fails with an
invalid-reference error and no partial result. -/
theorem parseGSURL_ok_iff (s b k : String) :
    parseGSURL s = Except.ok (b, k) ↔
      (s = "gs://" ++ b ++ "/" ++ k ∧ b ≠ "" ∧ '/' ∉ b.data ∧ '\n' ∉ k.data) := by
  rw [parseGSURL_eq_ok_iff_match, gsURLRegexpMatch_some_iff]
  have hgs : ("gs://" : String).data = ['g', 's', ':', '/', '/'] := rfl
  have hshape : s.data = ['g', 's', ':', '/', '/'] ++ b.data ++ '/' :: k.data ↔
      s = "gs://" ++ b ++ "/" ++ k := by
    rw [string_eq_iff, string_data_append, string_data_append, string_data_append, hgs]
    constructor
    · intro h; rw [h]; simp
    · intro h; rw [h]; simp
  have hempty : (b.data ≠ []) ↔ b ≠ "" := by
    constructor
    · intro h hb
      exact h (by rw [hb])
    · intro h hd
      exact h ((string_eq_iff b "").mpr hd)
  rw [hshape, hempty]

/-- Claim C3 counterexample: `gs://b/a\nb` has the claimed well-formed
shape `scheme://B/K` with `B = "b"` non-empty and slash-free and
`K = "a\nb"`, yet the parser rejects it instead of returning
`(B, K)`. -/
theorem parse_newline_key_counterexample :
    ("gs://b/a\nb" : String) = "gs://" ++ "b" ++ "/" ++ "a\nb" ∧
    ("b" : String) ≠ "" ∧ '/' ∉ ("b" : String).data ∧
    parseGSURL "gs://b/a\nb" = .error "invalid GCS URL: gs://b/a\nb" := by
  decide

/-- Claim C7: `cachePathOf` is pure and deterministic (two applications
to the same pair give the same path); the code-side flattening agrees
with the spec-side one (every `'/'` of the key replaced by `'-'`); the
path is the root followed by the final component
`bucket ++ "--" ++ flattened key`; and the worked example from the spec
holds. -/
theorem cachePath_deterministic_flatten (root b k : String) :
    cachePathOf root b k = cachePathOf root b k ∧
    replaceSlashDash k.data = k.data.map (fun c => if c = '/' then '-' else c) ∧
    cachePathOf root b k = root ++ "/" ++ (b ++ "--" ++ specFlattenKey k) ∧
    cachePathOf root "my-bucket" "path/to/object.json" =
      root ++ "/" ++ "my-bucket--path-to-object.json" := by
  refine ⟨rfl, replaceSlashDash_eq_map k.data, ?_, ?_⟩
  · have hF : (⟨replaceSlashDash k.data⟩ : String) = specFlattenKey k :=
      congrArg String.mk (replaceSlashDash_eq_map k.data)
    unfold cachePathOf
    rw [hF, str_append_assoc (root ++ "/" ++ b) "--" (specFlattenKey k),
      str_append_assoc (root ++ "/") b ("--" ++ specFlattenKey k),
      str_append_assoc b "--" (specFlattenKey k)]
  · unfold cachePathOf
    rw [str_append_assoc (root ++ "/" ++ "my-bucket") "--" _,
      str_append_assoc (root ++ "/") "my-bucket" _]
    have h2 : ("my-bucket" : String) ++
        ("--" ++ (⟨replaceSlashDash ("path/to/object.json" : String).data⟩ : String)) =
        "my-bucket--path-to-object.json" := by decide
    rw [h2]

/-- Claim C1: in the Ruby implementation a response status other than 200
and 304 makes `update_http` fail with an error carrying the status while
cache file and sidecar stay untouched; the Go `update`, evaluated at a
failing input (status 500, body `err`, cached content `WORLD`), instead
returns success and rewrites the cached bytes because it never inspects
the status. -/
theorem nonOk_status_fetch_divergence (c : Nat) (b : String) (et : Option String) (fs : FS)
    (h200 : c ≠ 200) (h304 : c ≠ 304) :
    rubyUpdateHttpTrace ⟨c, b, et⟩ = (.error (.httpError c), [REv.mkTmpDir, REv.rmTmpDir]) ∧
    (applyTrace fs (rubyUpdateHttpTrace ⟨c, b, et⟩).2).cacheFile = fs.cacheFile ∧
    (applyTrace fs (rubyUpdateHttpTrace ⟨c, b, et⟩).2).sidecar = fs.sidecar ∧
    goUpdate "WORLD".data ⟨500, "err".data⟩ = .ok "errLD".data ∧
    "errLD".data ≠ "WORLD".data := by
  have htr : rubyUpdateHttpTrace ⟨c, b, et⟩ =
      (.error (.httpError c), [REv.mkTmpDir, REv.rmTmpDir]) := by
    unfold rubyUpdateHttpTrace rubyGet
    simp [h200, h304]
  refine ⟨htr, ?_, ?_, by decide, by decide⟩
  · rw [htr]; rfl
  · rw [htr]; rfl

/-- Claim C1 witness: the Ruby part of the theorem applied at status 500
with body `err`. -/
theorem nonOk_status_fetch_divergence_witness :
    (500 ≠ 200) ∧
    rubyUpdateHttpTrace ⟨500, "err", none⟩ =
      (.error (.httpError 500), [REv.mkTmpDir, REv.rmTmpDir]) :=
  ⟨by decide, (nonOk_status_fetch_divergence 500 "err" none ⟨some "WORLD", none, none⟩
      (by decide) (by decide)).1⟩

/-- Claim C2: the Go `update`, downloading body chunks `HI` then `!` over
cached content `WORLD`, makes the cache path itself pass through the
partially written state `HIRLD` — distinct from both the old and the
final content — because it writes in place with no temporary file and no
rename; the Ruby `update_http`, by contrast, writes the temp file,
renames, and only then writes the sidecar, in that order. -/
theorem go_update_partial_write_divergence :
    goUpdateStates "WORLD".data [['H', 'I'], ['!']] =
      ["WORLD".data, "HIRLD".data, "HI!LD".data] ∧
    "HIRLD".data ≠ "WORLD".data ∧ "HIRLD".data ≠ "HI!LD".data ∧
    goUpdateFinal "WORLD".data "HI!".data = "HI!LD".data ∧
    rubyUpdateHttpTrace ⟨200, "HI!", some "E"⟩ =
      (.ok (), [.mkTmpDir, .writeTmp "HI!", .mvTmpToCache, .writeSidecar "E", .rmTmpDir]) := by
  decide

/-- Claim C4: with no token held, the Go `Read` and `Copy` (which never
call `ensureCurrentToken`) and `Open` (which discards its error) all
reach the Authorization-building step of `update` and dereference a nil
token instead of aborting with the credential error — which
`ensureCurrentToken` did produce and `Open` threw away. -/
theorem go_operations_nil_token_divergence :
    goReadOp none = GoOp.panicNilDeref ∧
    goCopyOp none = GoOp.panicNilDeref ∧
    goOpenOp 10 GoCacheFile.absent none = GoOp.panicNilDeref ∧
    (goEnsureCurrentToken 10 GoCacheFile.absent none).1 =
      .error "could not obtain access token" := by decide

/-- Claim C5 (amended): the Ruby source chain equals the spec-side
ordered resolution — durable cache, SDK store, network refresh, in that
order, short-circuiting on the first source that yields a token and
aborting on the first raised error; the Go implementation consults at
most the durable cache and fails when it yields no token. -/
theorem ensure_token_tier_order (env : RbCredEnv) (now : Int) (held : Option GoToken) :
    rubyResolveTiers env = specResolve (rubyTierOutcomes env) ∧
    (goConsultedTiers now held = [] ∨ goConsultedTiers now held = [TierId.durableCache]) ∧
    goEnsureFromCache GoCacheFile.absent none =
      (.error "could not obtain access token", none) := by
  refine ⟨?_, ?_, by decide⟩
  · cases h1 : tryAccessTokenFromCache env.now env.cacheFile with
    | error e => simp [rubyResolveTiers, specResolve, rubyTierOutcomes, h1]
    | ok o =>
      cases o with
      | some t => simp [rubyResolveTiers, specResolve, rubyTierOutcomes, h1]
      | none =>
        cases h2 : tryAccessTokenFromGcloudDB env.now env.gcloudDB with
        | error e => simp [rubyResolveTiers, specResolve, rubyTierOutcomes, h1, h2]
        | ok o2 =>
          cases o2 with
          | some t => simp [rubyResolveTiers, specResolve, rubyTierOutcomes, h1, h2]
          | none =>
            cases h3 : refreshAccessToken env.now env.refresh with
            | error e =>
              simp [rubyResolveTiers, specResolve, rubyTierOutcomes, h1, h2, h3, Except.map]
            | ok t =>
              simp [rubyResolveTiers, specResolve, rubyTierOutcomes, h1, h2, h3, Except.map]
  · cases held with
    | none => right; rfl
    | some t =>
      by_cases h : now < t.expiry
      · left; simp [goConsultedTiers, h]
      · right; simp [goConsultedTiers, h]

/-- Claim C5 counterexample: with the durable cache absent, the SDK store
file missing, and a refresh exchange that would succeed, the Ruby
resolution fails (ENOENT) after consulting only two of the three tiers —
the refresh tier, which would have yielded a usable token, is never
tried — so resolution does not fail exactly when all three tiers have
been tried and none yielded a token; the Go implementation even fails
after consulting a single tier. -/
theorem ensure_token_early_abort_counterexample :
    rubyEnsureCurrentToken ⟨10, .absent, .fileMissing, .success "T" 3600⟩ none =
      (.error .enoent, [TierId.durableCache, TierId.sdkStore]) ∧
    refreshAccessToken 10 (.success "T" 3600) = .ok ("T", 3610) ∧
    (10 : Int) < 3610 ∧
    ([TierId.durableCache, TierId.sdkStore] ≠
      [TierId.durableCache, TierId.sdkStore, TierId.networkRefresh]) ∧
    goEnsureCurrentToken 10 GoCacheFile.absent none =
      (.error "could not obtain access token", none) ∧
    goConsultedTiers 10 none = [TierId.durableCache] := by decide

/-- Claim C6: evaluated at a cached record whose expiry (5) is before the
current time (10), the Go `ensureCurrentToken` accepts the expired token
— `findTokenInCache` performs no expiry check — while the Ruby
`try_access_token_from_cache` rejects it and the Ruby chain falls
through to the next tier, as the claim requires. -/
theorem expired_cache_token_divergence :
    goEnsureCurrentToken 10 (GoCacheFile.record "T" 5) none = (.ok (), some ⟨"T", 5⟩) ∧
    (5 : Int) < 10 ∧
    tryAccessTokenFromCache 10 (RbCacheFile.record "T" 5) = .ok none ∧
    rubyResolveTiers ⟨10, .record "T" 5, .row "U" 99, .success "V" 3600⟩ =
      (.ok ("U", 99), [TierId.durableCache, TierId.sdkStore]) := by decide

/-- Claim C8: for the Ruby implementation, a second fetch of the same
reference with an unchanged remote sends the stored ETag as
`If-None-Match`, receives a 304, and leaves the cached bytes identical;
the Go `update` never sends `If-None-Match` at all, so the server answers
200 (never 304) and the body is re-downloaded. -/
theorem conditional_fetch_idempotence_divergence :
    (∀ (r : Remote) (fs0 : FS),
      (rubyUpdateCall r (rubyUpdateCall r fs0).1).2.ifNoneMatch = some r.etag ∧
      (rubyUpdateCall r (rubyUpdateCall r fs0).1).2.respCode = 304 ∧
      (rubyUpdateCall r (rubyUpdateCall r fs0).1).1.cacheFile =
        (rubyUpdateCall r fs0).1.cacheFile) ∧
    (goRequestHeaders "T").lookup "If-None-Match" = none ∧
    (serve ⟨"DATA", "E1"⟩ none).code = 200 ∧
    goUpdateFinal [] "DATA".data = "DATA".data := by
  refine ⟨?_, by decide, by decide, by decide⟩
  intro r fs0
  have h2 : ∀ fs1 : FS, fs1.sidecar = some r.etag →
      (rubyUpdateCall r fs1).2.ifNoneMatch = some r.etag ∧
      (rubyUpdateCall r fs1).2.respCode = 304 ∧
      (rubyUpdateCall r fs1).1.cacheFile = fs1.cacheFile := by
    intro fs1 h
    unfold rubyUpdateCall
    simp [serve, h, rubyUpdateHttpTrace, rubyGet, applyTrace, applyREv]
  have hsid : (rubyUpdateCall r fs0).1.sidecar = some r.etag := by
    unfold rubyUpdateCall
    by_cases h : fs0.sidecar = some r.etag
    · simp [serve, h, rubyUpdateHttpTrace, rubyGet, applyTrace, applyREv]
    · simp [serve, h, rubyUpdateHttpTrace, rubyGet, applyTrace, applyREv]
  exact ⟨(h2 _ hsid).1, (h2 _ hsid).2.1, (h2 _ hsid).2.2⟩

/-- Claim C9 counterexample: one `update_cache` call over an existing
record (prior mode 0644) performs no rename at all, makes the live file
pass through the truncated state — visible to a concurrent reader and
different from both the complete prior and the complete new record — and
a call on a fresh file leaves mode 0666, not the owner-only 0600. -/
theorem update_cache_direct_write_counterexample :
    ((updateCacheEvents "NEWRECORD").any isRenameEv) = false ∧
    credStatesFrom ⟨some "OLDRECORD", some 0o644⟩ (updateCacheEvents "NEWRECORD") =
      [⟨some "OLDRECORD", some 0o644⟩, ⟨some "", some 0o644⟩,
       ⟨some "NEWRECORD", some 0o644⟩, ⟨some "NEWRECORD", some 0o644⟩,
       ⟨some "NEWRECORD", some 0o644⟩] ∧
    ((some "" : Option String) ≠ some "OLDRECORD") ∧
    ((some "" : Option String) ≠ some "NEWRECORD") ∧
    (applyWEvs ⟨none, none⟩ (updateCacheEvents "NEWRECORD")).mode = some 0o666 ∧
    (0o666 : Nat) ≠ 0o600 := by decide

/-- Claim C9 (amended): every `update_cache` store writes the record
directly to the live cache path — no temporary file, no rename — first
truncating and rewriting it in place and then rewriting the same bytes
through a no-truncate reopen; the truncated empty state is among the
states a concurrent reader can observe, the prior permission bits are
kept on an existing file, and a file created by this method gets the
default 0666 mode rather than 0600. -/
theorem update_cache_trace_characterization (j prior : String) (m : Nat) :
    ((updateCacheEvents j).any isRenameEv) = false ∧
    applyWEvs ⟨some prior, some m⟩ (updateCacheEvents j) = ⟨some j, some m⟩ ∧
    (⟨some "", some m⟩ : CredFileState) ∈
      credStatesFrom ⟨some prior, some m⟩ (updateCacheEvents j) ∧
    (applyWEvs ⟨none, none⟩ (updateCacheEvents j)).mode = some 0o666 := by
  refine ⟨rfl, ?_, ?_, ?_⟩
  · simp [applyWEvs, updateCacheEvents, applyWEv, overwriteAt, drop_string_length,
      string_mk_data]
  · simp [credStatesFrom, updateCacheEvents, applyWEv]
  · simp [applyWEvs, updateCacheEvents, applyWEv, overwriteAt, drop_string_length,
      string_mk_data]

/-- Claim C10: the Go `update` opens the cache file without truncation,
so when the old content is longer than the downloaded body the resulting
file is the body followed by the old tail; a repeated update (as `Read`
performs before reading) reproduces the same mixed bytes, and the result
differs from the downloaded object. -/
theorem go_update_no_truncate_mixed_bytes (old body : List Char)
    (h : body.length < old.length) :
    goUpdateFinal old body = body ++ old.drop body.length ∧
    goUpdateFinal (goUpdateFinal old body) body = body ++ old.drop body.length ∧
    goUpdateFinal old body ≠ body := by
  have h1 : goUpdateFinal old body = body ++ old.drop body.length := by
    unfold goUpdateFinal overwriteAt
    simp
  refine ⟨h1, ?_, ?_⟩
  · rw [h1]
    unfold goUpdateFinal overwriteAt
    simp [List.drop_left]
  · rw [h1]
    intro hEq
    have hl := congrArg List.length hEq
    simp [List.length_append, List.length_drop] at hl
    omega

/-- Claim C10 witness: cached `HELLOWORLD` overwritten by body `BYE`
yields `BYELOWORLD`. -/
theorem go_update_no_truncate_mixed_bytes_witness :
    ("BYE".data.length < "HELLOWORLD".data.length) ∧
    goUpdateFinal "HELLOWORLD".data "BYE".data =
      "BYE".data ++ "HELLOWORLD".data.drop "BYE".data.length :=
  ⟨by decide, (go_update_no_truncate_mixed_bytes "HELLOWORLD".data "BYE".data (by decide)).1⟩

end FastGCSProof
